import Mathlib

/-!
Shallow embedding of the UAct_BackEnd `CSTracker` application/approval
workflow (models.py, signals.py, views.py, serializers.py) and proofs about
its decision, seat-accounting and hour-accrual behaviour.

Conventions of the embedding:
* Django model rows become Lean structures; the database becomes a `DB`
  structure of association lists keyed by `Nat` primary keys (for
  `ProgramSubmissions`, whose rows are addressed by pk in the API), by id
  (programs, student profiles), or stored positionally (applications,
  service logs).
* `IntegerField` values become `Int`; date fields become `Int` day ordinals
  (only `<`, `=`, `>` comparisons are used by the source).
* Status `CharField` values stay `String`, mirroring the literal choices in
  models.py ("pending" / "approved" / "rejected" and the ServiceLog
  statuses).
* A Django `.save()` runs the registered `pre_save` / `post_save` signal
  receivers of signals.py synchronously, in their registration (definition)
  order; the embedding threads the `DB` through the receivers in exactly
  that order.
* A request handler that raises maps to `DB × Option Err`; mutations
  performed before the raising point persist (the source wraps nothing in a
  transaction), so each function returns the state it actually left behind.
* views.py / serializers.py address a `ProgramSubmissions` row's application
  through an `application` reference (`submission.application`,
  `order_by('-decision_at')`) that the models.py variant keys by the
  (student, program) pair; the embedding resolves that reference through
  the (student, program) pair, which identifies at most one application
  under the uniqueness invariant the code enforces.
-/

namespace CSTracker

/-- Status literals of `ProgramSubmissions.STATUS_CHOICES` (models.py). -/
def PENDING : String := "pending"

/-- Status literal `ProgramSubmissions.APPROVED` (models.py). -/
def APPROVED : String := "approved"

/-- Status literal `ProgramSubmissions.REJECTED` (models.py). -/
def REJECTED : String := "rejected"

/-- Literal `ServiceLog.STATUS_PENDING` (models.py). -/
def STATUS_PENDING : String := "pending"

/-- Literal `ServiceLog.STATUS_ONGOING` (models.py). -/
def STATUS_ONGOING : String := "ongoing"

/-- Literal `ServiceLog.STATUS_COMPLETED` (models.py). -/
def STATUS_COMPLETED : String := "completed"

/-- `Program` (models.py): schedule date, hour credit, capacity and consumed
seats. Fields not consulted by the verified workflow (name, description,
location, facilitator, times) are omitted. -/
structure Program where
  date : Int
  hours : Int
  slots : Int
  slots_taken : Int
deriving DecidableEq, Repr

/-- `StudentProfile` (models.py): only the accrual counter matters here. -/
structure StudentProfile where
  hours_completed : Int
deriving DecidableEq, Repr

/-- `ProgramApplication` (models.py): the (student, program) pair and the
decision status mirrored onto it by `sync_submission_to_application`. -/
structure ProgramApplication where
  student : Nat
  program : Nat
  status : String
deriving DecidableEq, Repr

/-- `ProgramSubmissions` row (models.py): the (student, program) pair and the
decision status. -/
structure ProgramSubmission where
  student : Nat
  program : Nat
  status : String
deriving DecidableEq, Repr

/-- `ServiceLog` (models.py): fulfillment status, awarded hours and the
admin-controlled `approved` flag. -/
structure ServiceLog where
  student : Nat
  program : Nat
  hours : Int
  status : String
  approved : Bool
deriving DecidableEq, Repr

/-- The database state: programs and student profiles keyed by id,
submissions keyed by primary key, applications and service logs stored as
row lists; `next_pk` supplies fresh submission primary keys. -/
structure DB where
  programs : List (Nat × Program)
  students : List (Nat × StudentProfile)
  applications : List ProgramApplication
  submissions : List (Nat × ProgramSubmission)
  logs : List ServiceLog
  next_pk : Nat
deriving DecidableEq, Repr

/-- Errors raised by the embedded handlers, mirroring the exceptions /
error responses of the source. -/
inductive Err where
  /-- serializers.py: "Program not found." / views.py 404 on `get_object`. -/
  | ProgramNotFound
  /-- serializers.py: "This program is fully booked." -/
  | FullyBooked
  /-- serializers.py: "User is not associated with a student profile." -/
  | NoStudentProfile
  /-- serializers.py: "You have already applied to this program." -/
  | DuplicateApplication
  /-- views.py update_status: "Invalid status provided." -/
  | InvalidStatus
  /-- signals.py prevent_duplicate_submission: ValueError "This student has
  already submitted for this program." -/
  | DuplicateSubmission
deriving DecidableEq, Repr

/-- Association-list lookup, mirroring `Model.objects.get(pk=...)`:
the first row with the given key. -/
def lookup {α : Type} : List (Nat × α) → Nat → Option α
  | [], _ => none
  | p :: rest, k => if p.1 = k then some p.2 else lookup rest k

/-- Write a row back under its key, mirroring `inst.save()` on an
existing row. -/
def setKey {α : Type} : List (Nat × α) → Nat → α → List (Nat × α)
  | [], _, _ => []
  | p :: rest, k, v =>
      if p.1 = k then (k, v) :: setKey rest k v else p :: setKey rest k v

/-- signals.py `update_hours_completed` (post_save on ServiceLog): whenever a
ServiceLog is saved with `approved` set, add the log's hours to the
student's `hours_completed`. The source has no guard on `created` nor on
the previous value of `approved`. -/
def update_hours_completed (db : DB) (inst : ServiceLog) : DB :=
  if inst.approved then
    match lookup db.students inst.student with
    | some sp =>
        let sp1 := { sp with hours_completed := sp.hours_completed + inst.hours }
        { db with students := setKey db.students inst.student sp1 }
    | none => db
  else db

/-- signals.py `prevent_duplicate_submission` (pre_save on
ProgramSubmissions): true iff another submission row (a different pk) exists
for the same (student, program) pair, in which case the save raises. -/
def prevent_duplicate_submission (db : DB) (pk : Option Nat)
    (inst : ProgramSubmission) : Bool :=
  db.submissions.any (fun p =>
    (match pk with
     | some k => p.1 != k
     | none => true) &&
    p.2.student == inst.student && p.2.program == inst.program)

/-- Update the first application row matching the (student, program) pair,
mirroring `ProgramApplication.objects.get(...)` followed by `app.save()`. -/
def updateFirstApp (apps : List ProgramApplication) (student program : Nat)
    (st : String) : List ProgramApplication :=
  match apps with
  | [] => []
  | a :: rest =>
      if a.student == student && a.program == program then
        { a with status := st } :: rest
      else a :: updateFirstApp rest student program st

/-- signals.py `sync_submission_to_application` (post_save on
ProgramSubmissions): copy the submission's status onto the matching
application when one exists and the statuses differ (`DoesNotExist` is
swallowed). Saving the application fires
`create_submission_from_application` with `created = False`, a no-op. -/
def sync_submission_to_application (db : DB) (inst : ProgramSubmission) : DB :=
  match db.applications.find? (fun a =>
      a.student == inst.student && a.program == inst.program) with
  | some app =>
      if app.status ≠ inst.status then
        { db with applications :=
            (updateFirstApp db.applications inst.student inst.program
              inst.status) }
      else db
  | none => db

/-- Fulfillment-status derivation inlined in signals.py
`create_service_log_on_approval` (lines 115–122): compare today's date with
the program's date. -/
def derive_fulfillment_status (today program_date : Int) : String :=
  if today < program_date then STATUS_PENDING
  else if today = program_date then STATUS_ONGOING
  else STATUS_COMPLETED

/-- signals.py `create_service_log_on_approval` (post_save on
ProgramSubmissions): when the saved submission is approved, (a) increment
`slots_taken` under the guards "no other approved submission row for the
pair" and `slots_taken < slots`, then (b) create the ServiceLog for the
pair unless one exists, with fulfillment status derived from the dates,
`hours` copied from the program, and `approved = False`; the creation fires
`update_hours_completed` on the new log. -/
def create_service_log_on_approval (db : DB) (pk : Nat)
    (inst : ProgramSubmission) (today : Int) : DB :=
  if inst.status = APPROVED then
    match lookup db.programs inst.program with
    | none => db
    | some program =>
        let already_approved := db.submissions.any (fun p =>
          p.1 != pk && p.2.student == inst.student &&
          p.2.program == inst.program && p.2.status == APPROVED)
        let db1 :=
          if ¬ already_approved ∧ program.slots_taken < program.slots then
            let program1 := { program with slots_taken := program.slots_taken + 1 }
            { db with programs := setKey db.programs inst.program program1 }
          else db
        if db1.logs.any (fun l =>
            l.student == inst.student && l.program == inst.program) then
          db1
        else
          let newlog : ServiceLog :=
            { student := inst.student, program := inst.program,
              hours := program.hours,
              status := derive_fulfillment_status today program.date,
              approved := false }
          let db2 := { db1 with logs := db1.logs ++ [newlog] }
          update_hours_completed db2 newlog
  else db

/-- A full `.save()` of a ProgramSubmissions row: the pre_save duplicate
check, the row write (insert when `creating`, update otherwise), then the
post_save receivers in registration order (`sync_submission_to_application`,
`create_service_log_on_approval`). -/
def save_submission (db : DB) (pk : Nat) (inst : ProgramSubmission)
    (today : Int) (creating : Bool) : DB × Option Err :=
  if prevent_duplicate_submission db (if creating then none else some pk) inst then
    (db, some .DuplicateSubmission)
  else
    let db1 :=
      if creating then { db with submissions := db.submissions ++ [(pk, inst)] }
      else { db with submissions := setKey db.submissions pk inst }
    let db2 := sync_submission_to_application db1 inst
    (create_service_log_on_approval db2 pk inst today, none)

/-- views.py `ProgramSubmissionsViewSet.update_status` (lines 255–277): look
up the submission, reject outcomes other than 'approved'/'rejected', set
and save the status (running the signal cascade), and when the outcome is
'approved' additionally add the program's hours to the student's
`hours_completed` directly. There is no already-decided guard. -/
def update_status (db : DB) (pk : Nat) (new_status : String) (today : Int) :
    DB × Option Err :=
  match lookup db.submissions pk with
  | none => (db, some .ProgramNotFound)
  | some submission =>
      if new_status ≠ APPROVED ∧ new_status ≠ REJECTED then
        (db, some .InvalidStatus)
      else
        let inst := { submission with status := new_status }
        match save_submission db pk inst today false with
        | (db1, some e) => (db1, some e)
        | (db1, none) =>
            if new_status = APPROVED then
              match lookup db1.programs inst.program,
                    lookup db1.students inst.student with
              | some program, some sp =>
                  let sp1 :=
                    { sp with hours_completed := sp.hours_completed + program.hours }
                  ({ db1 with students := setKey db1.students inst.student sp1 }, none)
              | _, _ => (db1, some .ProgramNotFound)
            else (db1, none)

/-- serializers.py `ProgramApplicationSerializer.validate_program_id`
(lines 144–166): program must exist, have `slots_remaining > 0`, the
requesting user must have a student profile, and no application may already
exist for the (student, program) pair. -/
def validate_program_id (db : DB) (student pid : Nat) : Option Err :=
  match lookup db.programs pid with
  | none => some .ProgramNotFound
  | some program =>
      if program.slots - program.slots_taken ≤ 0 then some .FullyBooked
      else
        match lookup db.students student with
        | none => some .NoStudentProfile
        | some _ =>
            if db.applications.any (fun a =>
                a.student == student && a.program == pid) then
              some .DuplicateApplication
            else none

/-- signals.py `create_submission_from_application` (post_save on
ProgramApplication, `created = True`): create a ProgramSubmissions row
copying the application's fields (in particular its status); the creation
is itself a full save with the signal cascade. -/
def create_submission_from_application (db : DB) (app : ProgramApplication)
    (today : Int) : DB × Option Err :=
  let pk := db.next_pk
  let db1 := { db with next_pk := pk + 1 }
  save_submission db1 pk
    { student := app.student, program := app.program, status := app.status }
    today true

/-- views.py `program_apply` + serializers.py `create` (lines 168–187):
validate, create the ProgramApplication with default status 'pending'
(the serializer sets no status), then the post_save receiver creates the
matching submission. A failure inside the cascade leaves the already
written application behind (the source uses no transaction). -/
def program_apply (db : DB) (student pid : Nat) (today : Int) : DB × Option Err :=
  match validate_program_id db student pid with
  | some e => (db, some e)
  | none =>
      let app : ProgramApplication :=
        { student := student, program := pid, status := PENDING }
      let db1 := { db with applications := db.applications ++ [app] }
      create_submission_from_application db1 app today

/-- Administrator accreditation of a ServiceLog (admin.py registers
ServiceLog for editing; serializers.py exposes `approved` as the only
writable field): set `approved := true` on the row for the pair and save
it, firing signals.py `update_hours_completed`. The source contains no
AlreadyApproved guard. -/
def approve_service_log (db : DB) (student pid : Nat) : DB × Option Err :=
  match db.logs.find? (fun l => l.student == student && l.program == pid) with
  | none => (db, some .ProgramNotFound)
  | some log =>
      let log1 := { log with approved := true }
      let db1 := { db with logs := db.logs.map (fun l =>
          if l.student == student && l.program == pid then log1 else l) }
      (update_hours_completed db1 log1, none)

/-- The operations of the workflow surface: student submission, admin
decision, admin log accreditation. -/
inductive Op where
  | submit (student pid : Nat)
  | decide (pk : Nat) (new_status : String)
  | approveLog (student pid : Nat)
deriving DecidableEq, Repr

/-- One request: dispatch an operation to its handler. -/
def step (db : DB) (today : Int) : Op → DB × Option Err
  | .submit student pid => program_apply db student pid today
  | .decide pk new_status => update_status db pk new_status today
  | .approveLog student pid => approve_service_log db student pid

/-- Run a sequence of requests, keeping the state each handler left behind
(failed requests keep their partial effects, as in the source). -/
def run (db : DB) (today : Int) : List Op → DB
  | [] => db
  | op :: ops => run (step db today op).1 today ops

/-- serializers.py `ServiceHistorySerializer.get_current_status` operates on
the submission rows related to an application, each carrying a status and a
`decision_at` timestamp. -/
structure SubmissionRec where
  status : String
  decision_at : Int
deriving DecidableEq, Repr

/-- The head of `order_by('-decision_at')`: the first row holding the
maximal `decision_at` (a stable descending sort puts the earliest-listed
maximal row first). -/
def latest_submission (subs : List SubmissionRec) : Option SubmissionRec :=
  match subs with
  | [] => none
  | s :: rest =>
      some (rest.foldl (fun acc x => if x.decision_at > acc.decision_at then x else acc) s)

/-- serializers.py `ServiceHistorySerializer.get_current_status`
(lines 283–298): the status of the latest related submission, or the
literal string "UNKNOWN" when none exists. -/
def get_current_status (subs : List SubmissionRec) : String :=
  match latest_submission subs with
  | some s => s.status
  | none => "UNKNOWN"

/-! ### Association-list lemmas -/

theorem lookup_mem {α : Type} {l : List (Nat × α)} {k : Nat} {v : α}
    (h : lookup l k = some v) : (k, v) ∈ l := by
  induction l with
  | nil => simp [lookup] at h
  | cons p rest ih =>
      by_cases hk : p.1 = k
      · rw [lookup, if_pos hk] at h
        obtain ⟨k1, v1⟩ := p
        simp only at hk
        subst hk
        injection h with h
        subst h
        exact List.mem_cons_self _ _
      · rw [lookup, if_neg hk] at h
        exact List.mem_cons_of_mem _ (ih h)

theorem lookup_setKey_self {α : Type} (l : List (Nat × α)) (k : Nat) (v : α) :
    lookup (setKey l k v) k = (lookup l k).map (fun _ => v) := by
  induction l with
  | nil => rfl
  | cons p rest ih =>
      by_cases h : p.1 = k
      · simp [lookup, setKey, h]
      · simp [lookup, setKey, h, ih]

theorem lookup_setKey_ne {α : Type} (l : List (Nat × α)) (k k' : Nat) (v : α)
    (h : k' ≠ k) : lookup (setKey l k v) k' = lookup l k' := by
  induction l with
  | nil => rfl
  | cons p rest ih =>
      by_cases hp : p.1 = k
      · have hne : ¬ k = k' := fun hc => h hc.symm
        simp [lookup, setKey, hp, hne, ih]
      · by_cases hk : p.1 = k'
        · simp [lookup, setKey, hp, hk, h]
        · simp [lookup, setKey, hp, hk, ih]

theorem mem_setKey {α : Type} {l : List (Nat × α)} {k : Nat} {v : α} {y : Nat × α}
    (h : y ∈ setKey l k v) : y = (k, v) ∨ (y ∈ l ∧ y.1 ≠ k) := by
  induction l with
  | nil => simp [setKey] at h
  | cons p rest ih =>
      by_cases hp : p.1 = k
      · rw [setKey, if_pos hp] at h
        rcases List.mem_cons.mp h with h1 | h1
        · exact Or.inl h1
        · rcases ih h1 with h2 | h2
          · exact Or.inl h2
          · exact Or.inr ⟨List.mem_cons_of_mem _ h2.1, h2.2⟩
      · rw [setKey, if_neg hp] at h
        rcases List.mem_cons.mp h with h1 | h1
        · subst h1
          exact Or.inr ⟨List.mem_cons_self _ _, hp⟩
        · rcases ih h1 with h2 | h2
          · exact Or.inl h2
          · exact Or.inr ⟨List.mem_cons_of_mem _ h2.1, h2.2⟩

theorem setKey_no_key {α : Type} {l : List (Nat × α)} {k : Nat} {v : α}
    (h : ∀ q ∈ l, q.1 ≠ k) : setKey l k v = l := by
  induction l with
  | nil => rfl
  | cons p rest ih =>
      rw [setKey, if_neg (h p (List.mem_cons_self _ _))]
      rw [ih (fun q hq => h q (List.mem_cons_of_mem _ hq))]

/-! ### Which database fields each handler leaves untouched -/

theorem uhc_rest (db : DB) (log : ServiceLog) :
    (update_hours_completed db log).programs = db.programs ∧
    (update_hours_completed db log).applications = db.applications ∧
    (update_hours_completed db log).submissions = db.submissions ∧
    (update_hours_completed db log).logs = db.logs ∧
    (update_hours_completed db log).next_pk = db.next_pk := by
  unfold update_hours_completed
  split
  · split <;> exact ⟨rfl, rfl, rfl, rfl, rfl⟩
  · exact ⟨rfl, rfl, rfl, rfl, rfl⟩

theorem uhc_students_unapproved (db : DB) (log : ServiceLog)
    (h : log.approved = false) :
    (update_hours_completed db log).students = db.students := by
  unfold update_hours_completed
  rw [h]
  rfl

theorem sync_rest (db : DB) (inst : ProgramSubmission) :
    (sync_submission_to_application db inst).students = db.students ∧
    (sync_submission_to_application db inst).programs = db.programs ∧
    (sync_submission_to_application db inst).submissions = db.submissions ∧
    (sync_submission_to_application db inst).logs = db.logs ∧
    (sync_submission_to_application db inst).next_pk = db.next_pk := by
  unfold sync_submission_to_application
  split
  · split <;> exact ⟨rfl, rfl, rfl, rfl, rfl⟩
  · exact ⟨rfl, rfl, rfl, rfl, rfl⟩

theorem csloa_rest (db : DB) (pk : Nat) (inst : ProgramSubmission) (today : Int) :
    (create_service_log_on_approval db pk inst today).students = db.students ∧
    (create_service_log_on_approval db pk inst today).applications = db.applications ∧
    (create_service_log_on_approval db pk inst today).submissions = db.submissions ∧
    (create_service_log_on_approval db pk inst today).next_pk = db.next_pk := by
  unfold create_service_log_on_approval
  split
  · split
    · exact ⟨rfl, rfl, rfl, rfl⟩
    · dsimp only
      split
      · split <;> exact ⟨rfl, rfl, rfl, rfl⟩
      · split
        · exact ⟨rfl, rfl, rfl, rfl⟩
        · refine ⟨?_, ?_, ?_, ?_⟩ <;>
            simp [uhc_students_unapproved, (uhc_rest _ _).1, (uhc_rest _ _).2.1,
              (uhc_rest _ _).2.2.1, (uhc_rest _ _).2.2.2.2]
  · exact ⟨rfl, rfl, rfl, rfl⟩

theorem uhc_programs (db : DB) (log : ServiceLog) :
    (update_hours_completed db log).programs = db.programs := (uhc_rest db log).1

theorem uhc_submissions (db : DB) (log : ServiceLog) :
    (update_hours_completed db log).submissions = db.submissions :=
  (uhc_rest db log).2.2.1

theorem uhc_applications (db : DB) (log : ServiceLog) :
    (update_hours_completed db log).applications = db.applications :=
  (uhc_rest db log).2.1

theorem uhc_next_pk (db : DB) (log : ServiceLog) :
    (update_hours_completed db log).next_pk = db.next_pk := (uhc_rest db log).2.2.2.2

theorem sync_students (db : DB) (inst : ProgramSubmission) :
    (sync_submission_to_application db inst).students = db.students :=
  (sync_rest db inst).1

theorem sync_programs (db : DB) (inst : ProgramSubmission) :
    (sync_submission_to_application db inst).programs = db.programs :=
  (sync_rest db inst).2.1

theorem sync_submissions (db : DB) (inst : ProgramSubmission) :
    (sync_submission_to_application db inst).submissions = db.submissions :=
  (sync_rest db inst).2.2.1

theorem sync_next_pk (db : DB) (inst : ProgramSubmission) :
    (sync_submission_to_application db inst).next_pk = db.next_pk :=
  (sync_rest db inst).2.2.2.2

theorem csloa_students (db : DB) (pk : Nat) (inst : ProgramSubmission) (today : Int) :
    (create_service_log_on_approval db pk inst today).students = db.students :=
  (csloa_rest db pk inst today).1

theorem csloa_applications (db : DB) (pk : Nat) (inst : ProgramSubmission) (today : Int) :
    (create_service_log_on_approval db pk inst today).applications = db.applications :=
  (csloa_rest db pk inst today).2.1

theorem csloa_submissions (db : DB) (pk : Nat) (inst : ProgramSubmission) (today : Int) :
    (create_service_log_on_approval db pk inst today).submissions = db.submissions :=
  (csloa_rest db pk inst today).2.2.1

theorem csloa_next_pk (db : DB) (pk : Nat) (inst : ProgramSubmission) (today : Int) :
    (create_service_log_on_approval db pk inst today).next_pk = db.next_pk :=
  (csloa_rest db pk inst today).2.2.2

/-- The only way `create_service_log_on_approval` touches the program table:
either it is untouched, or exactly the submission's program row gets its
`slots_taken` incremented, and only under the `slots_taken < slots` guard. -/
theorem csloa_programs_cases (db : DB) (pk : Nat) (inst : ProgramSubmission)
    (today : Int) :
    (create_service_log_on_approval db pk inst today).programs = db.programs ∨
    ∃ prog, lookup db.programs inst.program = some prog ∧
      prog.slots_taken < prog.slots ∧
      (create_service_log_on_approval db pk inst today).programs =
        setKey db.programs inst.program
          { prog with slots_taken := prog.slots_taken + 1 } := by
  unfold create_service_log_on_approval
  split
  · split
    · left; rfl
    · rename_i prog heq
      dsimp only
      split
      · rename_i hguard
        right
        refine ⟨prog, heq, hguard.2, ?_⟩
        split
        · rfl
        · rw [uhc_programs]
      · left
        split
        · rfl
        · rw [uhc_programs]
  · left; rfl

theorem save_students (db : DB) (pk : Nat) (inst : ProgramSubmission)
    (today : Int) (creating : Bool) :
    (save_submission db pk inst today creating).1.students = db.students := by
  unfold save_submission
  split <;> split
  · rfl
  · dsimp only
    rw [csloa_students, sync_students]
  · rfl
  · dsimp only
    rw [csloa_students, sync_students]

theorem save_next_pk (db : DB) (pk : Nat) (inst : ProgramSubmission)
    (today : Int) (creating : Bool) :
    (save_submission db pk inst today creating).1.next_pk = db.next_pk := by
  unfold save_submission
  split <;> split
  · rfl
  · dsimp only
    rw [csloa_next_pk, sync_next_pk]
  · rfl
  · dsimp only
    rw [csloa_next_pk, sync_next_pk]

theorem asl_rest (db : DB) (student pid : Nat) :
    (approve_service_log db student pid).1.programs = db.programs ∧
    (approve_service_log db student pid).1.applications = db.applications ∧
    (approve_service_log db student pid).1.submissions = db.submissions ∧
    (approve_service_log db student pid).1.next_pk = db.next_pk := by
  unfold approve_service_log
  split
  · exact ⟨rfl, rfl, rfl, rfl⟩
  · dsimp only
    exact ⟨(uhc_rest _ _).1, (uhc_rest _ _).2.1, (uhc_rest _ _).2.2.1,
      (uhc_rest _ _).2.2.2.2⟩

/-! ### The capacity invariant -/

/-- Invariant of the spec: every program's consumed seats lie between 0 and
its capacity. -/
def SlotsInv (db : DB) : Prop :=
  ∀ p ∈ db.programs, 0 ≤ p.2.slots_taken ∧ p.2.slots_taken ≤ p.2.slots

theorem slots_inv_eq {db db' : DB} (hp : db'.programs = db.programs)
    (h : SlotsInv db) : SlotsInv db' := by
  intro p hmem
  rw [hp] at hmem
  exact h p hmem

theorem csloa_slots_inv (db : DB) (pk : Nat) (inst : ProgramSubmission)
    (today : Int) (h : SlotsInv db) :
    SlotsInv (create_service_log_on_approval db pk inst today) := by
  rcases csloa_programs_cases db pk inst today with hsame | ⟨prog, hl, hlt, hset⟩
  · exact slots_inv_eq hsame h
  · intro p hp
    rw [hset] at hp
    rcases mem_setKey hp with rfl | ⟨hmem, _⟩
    · have hold := h _ (lookup_mem hl)
      simp only at hold ⊢
      omega
    · exact h p hmem

theorem save_slots_inv (db : DB) (pk : Nat) (inst : ProgramSubmission)
    (today : Int) (creating : Bool) (h : SlotsInv db) :
    SlotsInv (save_submission db pk inst today creating).1 := by
  unfold save_submission
  split <;> split
  · exact h
  · dsimp only
    exact csloa_slots_inv _ _ _ _ (slots_inv_eq (sync_programs _ _) h)
  · exact h
  · dsimp only
    exact csloa_slots_inv _ _ _ _ (slots_inv_eq (sync_programs _ _) h)

theorem update_status_slots_inv (db : DB) (pk : Nat) (s : String) (today : Int)
    (h : SlotsInv db) : SlotsInv (update_status db pk s today).1 := by
  unfold update_status
  split
  · exact h
  · rename_i sub hlook
    split
    · exact h
    · dsimp only
      split
      · rename_i db1 e heq
        have hs := save_slots_inv db pk { sub with status := s } today false h
        rw [heq] at hs
        exact hs
      · rename_i db1 heq
        have h1 : SlotsInv db1 := by
          have hs := save_slots_inv db pk { sub with status := s } today false h
          rw [heq] at hs
          exact hs
        split
        · split <;> exact slots_inv_eq rfl h1
        · exact h1

theorem program_apply_slots_inv (db : DB) (student pid : Nat) (today : Int)
    (h : SlotsInv db) : SlotsInv (program_apply db student pid today).1 := by
  unfold program_apply
  split
  · exact h
  · dsimp only
    unfold create_submission_from_application
    exact save_slots_inv _ _ _ _ _ (slots_inv_eq rfl h)

theorem step_slots_inv (db : DB) (today : Int) (op : Op) (h : SlotsInv db) :
    SlotsInv (step db today op).1 := by
  cases op with
  | submit student pid => exact program_apply_slots_inv db student pid today h
  | decide pk s => exact update_status_slots_inv db pk s today h
  | approveLog student pid =>
      exact slots_inv_eq (asl_rest db student pid).1 h

theorem run_slots_inv (db : DB) (today : Int) (ops : List Op) (h : SlotsInv db) :
    SlotsInv (run db today ops) := by
  induction ops generalizing db with
  | nil => exact h
  | cons op ops ih => exact ih _ (step_slots_inv db today op h)

/-! ### Concrete fixtures -/

/-- A program with capacity 2, 8 credit hours, scheduled on day 10. -/
def exProgram : Program := { date := 10, hours := 8, slots := 2, slots_taken := 0 }

/-- One program, one student with no hours yet, nothing else. -/
def exDB : DB :=
  { programs := [(0, exProgram)], students := [(0, { hours_completed := 0 })],
    applications := [], submissions := [], logs := [], next_pk := 0 }

/-- Like `exDB` but with one unapproved 8-hour ServiceLog already present. -/
def exLogDB : DB :=
  { exDB with logs :=
      [{ student := 0, program := 0, hours := 8, status := STATUS_PENDING,
         approved := false }] }

/-- A fully-booked program (1 of 1 seats taken) with a pending application
and its pending submission already on file. -/
def exFullDB : DB :=
  { programs := [(0, { date := 10, hours := 8, slots := 1, slots_taken := 1 })],
    students := [(0, { hours_completed := 0 })],
    applications := [{ student := 0, program := 0, status := PENDING }],
    submissions := [(0, { student := 0, program := 0, status := PENDING })],
    logs := [], next_pk := 1 }

/-! ### Claim theorems -/

/-- C1 (code bug): `approve_service_log` has no AlreadyApproved guard, and
signals.py `update_hours_completed` fires on every save of an approved log.
With one 8-hour log, the first approval accrues 8 hours; a second approval
of the same, already-approved log reports no error and accrues again,
leaving `hours_completed = 16` instead of 8. -/
theorem approve_service_log_double_accrual :
    (approve_service_log exLogDB 0 0).2 = none ∧
    lookup (approve_service_log exLogDB 0 0).1.students 0 = some ⟨8⟩ ∧
    (approve_service_log (approve_service_log exLogDB 0 0).1 0 0).2 = none ∧
    lookup (approve_service_log (approve_service_log exLogDB 0 0).1 0 0).1.students 0 =
      some ⟨16⟩ := by
  decide

/-- C5 (code bug): the "AUTO-INCREMENT slots_taken ONLY ONCE" guard in
signals.py excludes the submission's own row, so deciding the same
submission as approved twice takes a second seat: after the first approval
`slots_taken = 1`, after re-approving the same submission it is 2. -/
theorem update_status_double_seat_reservation :
    lookup (run exDB 5 [Op.submit 0 0, Op.decide 0 APPROVED]).programs 0 =
      some { date := 10, hours := 8, slots := 2, slots_taken := 1 } ∧
    lookup (run exDB 5
        [Op.submit 0 0, Op.decide 0 APPROVED, Op.decide 0 APPROVED]).programs 0 =
      some { date := 10, hours := 8, slots := 2, slots_taken := 2 } := by
  decide

/-- C2 counterexample: `update_status` itself increments `hours_completed`
(views.py lines 268–275). Approving a pending submission raises the
student's hours from 0 to 8 although no ServiceLog ever had its `approved`
flag set — the log created along the way has `approved = false`. -/
theorem update_status_accrues_without_log_approval :
    lookup (run exDB 5 [Op.submit 0 0, Op.decide 0 APPROVED]).students 0 =
      some ⟨8⟩ ∧
    ∀ l ∈ (run exDB 5 [Op.submit 0 0, Op.decide 0 APPROVED]).logs,
      l.approved = false := by
  decide

/-- C3 counterexample: deciding an already-approved submission again, with a
different outcome, neither fails with AlreadyDecided nor leaves state
unchanged: the call reports no error and overwrites the status with
'rejected'. -/
theorem update_status_redecides_decided :
    (step (run exDB 5 [Op.submit 0 0, Op.decide 0 APPROVED]) 5
        (Op.decide 0 REJECTED)).2 = none ∧
    lookup (run exDB 5 [Op.submit 0 0, Op.decide 0 APPROVED]).submissions 0 =
      some ⟨0, 0, APPROVED⟩ ∧
    lookup (step (run exDB 5 [Op.submit 0 0, Op.decide 0 APPROVED]) 5
        (Op.decide 0 REJECTED)).1.submissions 0 = some ⟨0, 0, REJECTED⟩ := by
  decide

/-- C4 counterexample: approving an application of a full program (1 of 1
seats taken) succeeds — no ProgramFull failure, the decision is recorded as
approved — while the seat increment is silently skipped. -/
theorem update_status_full_program_no_failure :
    (update_status exFullDB 0 APPROVED 5).2 = none ∧
    lookup (update_status exFullDB 0 APPROVED 5).1.submissions 0 =
      some ⟨0, 0, APPROVED⟩ ∧
    lookup (update_status exFullDB 0 APPROVED 5).1.programs 0 =
      some ⟨10, 8, 1, 1⟩ := by
  decide

/-- C7 counterexample: when the program is full and an application already
exists, a repeated submit fails with the fully-booked error, not with
DuplicateApplication — the capacity check in `validate_program_id` runs
before the duplicate check (no record is created either way). -/
theorem program_apply_full_duplicate_error :
    (program_apply exFullDB 0 0 5).2 = some Err.FullyBooked ∧
    Err.FullyBooked ≠ Err.DuplicateApplication ∧
    (program_apply exFullDB 0 0 5).1 = exFullDB := by
  decide

/-- C8 counterexample: with no related submission record,
`get_current_status` returns the literal string "UNKNOWN", not the pending
status the claim requires. -/
theorem get_current_status_empty_unknown :
    get_current_status [] = "UNKNOWN" ∧ get_current_status [] ≠ PENDING := by
  decide

/-- C9: fulfillment-status derivation is the pure three-way comparison of
the current date with the program's date, exactly as in signals.py lines
115–122: earlier is pending, equal is ongoing, later is completed. -/
theorem derive_fulfillment_status_cases (today d : Int) :
    (today < d → derive_fulfillment_status today d = STATUS_PENDING) ∧
    (today = d → derive_fulfillment_status today d = STATUS_ONGOING) ∧
    (d < today → derive_fulfillment_status today d = STATUS_COMPLETED) := by
  refine ⟨fun h => ?_, fun h => ?_, fun h => ?_⟩
  · rw [derive_fulfillment_status, if_pos h]
  · rw [derive_fulfillment_status, if_neg (by omega), if_pos h]
  · rw [derive_fulfillment_status, if_neg (by omega), if_neg (by omega)]

/-- Witness for C9 at the spec's example dates (2024-01-05 / 2024-01-10 /
2024-01-15 against program date 2024-01-10, as day ordinals 5, 10, 15). -/
theorem derive_fulfillment_status_cases_witness :
    derive_fulfillment_status 5 10 = STATUS_PENDING ∧
    derive_fulfillment_status 10 10 = STATUS_ONGOING ∧
    derive_fulfillment_status 15 10 = STATUS_COMPLETED :=
  ⟨(derive_fulfillment_status_cases 5 10).1 (by decide),
   (derive_fulfillment_status_cases 10 10).2.1 rfl,
   (derive_fulfillment_status_cases 15 10).2.2 (by decide)⟩

/-- C6: starting from programs created with `slots_taken = 0` (and
nonnegative capacity), every sequence of workflow operations — decide calls
in particular — keeps `0 ≤ slots_taken ≤ slots` for every program: the only
write to `slots_taken` is the increment in `create_service_log_on_approval`,
guarded by `slots_taken < slots`, and nothing ever decrements it. -/
theorem slots_taken_bounded (db0 : DB) (today : Int) (ops : List Op)
    (h : ∀ p ∈ db0.programs, p.2.slots_taken = 0 ∧ 0 ≤ p.2.slots) :
    ∀ p ∈ (run db0 today ops).programs,
      0 ≤ p.2.slots_taken ∧ p.2.slots_taken ≤ p.2.slots := by
  have h0 : SlotsInv db0 := by
    intro p hp
    have := h p hp
    omega
  exact run_slots_inv db0 today ops h0

/-- Witness for C6: after a submission and two approvals the fixture's
program row (2 of 2 seats) satisfies the bounds. -/
theorem slots_taken_bounded_witness :
    0 ≤ ((0, { date := 10, hours := 8, slots := 2, slots_taken := 2 })
        : Nat × Program).2.slots_taken ∧
    ((0, { date := 10, hours := 8, slots := 2, slots_taken := 2 })
        : Nat × Program).2.slots_taken ≤
      ((0, { date := 10, hours := 8, slots := 2, slots_taken := 2 })
        : Nat × Program).2.slots :=
  slots_taken_bounded exDB 5
    [Op.submit 0 0, Op.decide 0 APPROVED, Op.decide 0 APPROVED] (by decide)
    (0, { date := 10, hours := 8, slots := 2, slots_taken := 2 }) (by decide)

/-- The fold underlying `latest_submission`, named for the proofs. -/
def pickLatest (acc : SubmissionRec) (l : List SubmissionRec) : SubmissionRec :=
  l.foldl (fun a x => if x.decision_at > a.decision_at then x else a) acc

theorem pickLatest_spec (acc : SubmissionRec) (l : List SubmissionRec) :
    (pickLatest acc l = acc ∨ pickLatest acc l ∈ l) ∧
    acc.decision_at ≤ (pickLatest acc l).decision_at ∧
    ∀ x ∈ l, x.decision_at ≤ (pickLatest acc l).decision_at := by
  induction l generalizing acc with
  | nil => exact ⟨Or.inl rfl, le_refl _, by simp⟩
  | cons y ys ih =>
      by_cases h : y.decision_at > acc.decision_at
      · have hstep : pickLatest acc (y :: ys) = pickLatest y ys := by
          simp [pickLatest, List.foldl, h]
        obtain ⟨hmem, hle, hall⟩ := ih y
        rw [hstep]
        refine ⟨?_, le_trans (le_of_lt h) hle, ?_⟩
        · rcases hmem with h1 | h1
          · exact Or.inr (by rw [h1]; exact List.mem_cons_self _ _)
          · exact Or.inr (List.mem_cons_of_mem _ h1)
        · intro x hx
          rcases List.mem_cons.mp hx with rfl | hx'
          · exact hle
          · exact hall x hx'
      · have hstep : pickLatest acc (y :: ys) = pickLatest acc ys := by
          simp [pickLatest, List.foldl, h]
        obtain ⟨hmem, hle, hall⟩ := ih acc
        rw [hstep]
        refine ⟨?_, hle, ?_⟩
        · rcases hmem with h1 | h1
          · exact Or.inl h1
          · exact Or.inr (List.mem_cons_of_mem _ h1)
        · intro x hx
          rcases List.mem_cons.mp hx with rfl | hx'
          · exact le_trans (not_lt.mp h) hle
          · exact hall x hx'

/-- C8 amended theorem: `get_current_status`
returns the status of the related submission holding the greatest
`decision_at` timestamp (on ties, the earliest listed — the head of a
stable descending sort), and returns the literal string "UNKNOWN" when no
submission record exists. -/
theorem get_current_status_latest (subs : List SubmissionRec) :
    (subs = [] → get_current_status subs = "UNKNOWN") ∧
    (subs ≠ [] → ∃ m ∈ subs, get_current_status subs = m.status ∧
      ∀ x ∈ subs, x.decision_at ≤ m.decision_at) := by
  constructor
  · intro h
    subst h
    rfl
  · intro h
    match subs with
    | [] => exact absurd rfl h
    | s :: rest =>
        have hs := pickLatest_spec s rest
        refine ⟨pickLatest s rest, ?_, rfl, ?_⟩
        · rcases hs.1 with h1 | h1
          · rw [h1]
            exact List.mem_cons_self _ _
          · exact List.mem_cons_of_mem _ h1
        · intro x hx
          rcases List.mem_cons.mp hx with rfl | hx'
          · exact hs.2.1
          · exact hs.2.2 x hx'

/-- Witness for the C8 amended theorem: of two records the one with the
later `decision_at` wins. -/
theorem get_current_status_latest_witness :
    ∃ m ∈ [SubmissionRec.mk APPROVED 1, SubmissionRec.mk REJECTED 5],
      get_current_status [SubmissionRec.mk APPROVED 1, SubmissionRec.mk REJECTED 5] =
        m.status ∧
      ∀ x ∈ [SubmissionRec.mk APPROVED 1, SubmissionRec.mk REJECTED 5],
        x.decision_at ≤ m.decision_at :=
  (get_current_status_latest _).2 (by decide)

/-! ### Behaviour of a submission save -/

theorem save_error_state {db : DB} {pk : Nat} {inst : ProgramSubmission}
    {today : Int} {creating : Bool} {e : Err}
    (h : (save_submission db pk inst today creating).2 = some e) :
    (save_submission db pk inst today creating).1 = db := by
  unfold save_submission at h ⊢
  by_cases hdup : prevent_duplicate_submission db
      (if creating then none else some pk) inst = true
  · rw [if_pos hdup]
  · rw [if_neg hdup] at h
    simp at h

theorem save_none_nodup {db : DB} {pk : Nat} {inst : ProgramSubmission}
    {today : Int} {creating : Bool}
    (h : (save_submission db pk inst today creating).2 = none) :
    prevent_duplicate_submission db (if creating then none else some pk) inst =
      false := by
  unfold save_submission at h
  by_cases hdup : prevent_duplicate_submission db
      (if creating then none else some pk) inst = true
  · rw [if_pos hdup] at h
    simp at h
  · simpa using hdup

theorem save_update_spec (db : DB) (pk : Nat) (inst : ProgramSubmission)
    (today : Int)
    (hnodup : prevent_duplicate_submission db (some pk) inst = false) :
    (save_submission db pk inst today false).2 = none ∧
    (save_submission db pk inst today false).1.submissions =
      setKey db.submissions pk inst := by
  unfold save_submission
  rw [if_neg (by simp [hnodup])]
  dsimp only
  rw [csloa_submissions, sync_submissions]
  exact ⟨rfl, rfl⟩

theorem save_create_spec (db : DB) (pk : Nat) (inst : ProgramSubmission)
    (today : Int)
    (hnodup : prevent_duplicate_submission db none inst = false) :
    (save_submission db pk inst today true).2 = none ∧
    (save_submission db pk inst today true).1.submissions =
      db.submissions ++ [(pk, inst)] := by
  unfold save_submission
  rw [if_neg (by simp [hnodup])]
  dsimp only
  rw [csloa_submissions, sync_submissions]
  exact ⟨rfl, rfl⟩

theorem csloa_programs_hours (db : DB) (pk : Nat) (inst : ProgramSubmission)
    (today : Int) (q : Nat) :
    (lookup (create_service_log_on_approval db pk inst today).programs q).map
        Program.hours =
      (lookup db.programs q).map Program.hours := by
  rcases csloa_programs_cases db pk inst today with hsame | ⟨prog, hl, _, hset⟩
  · rw [hsame]
  · rw [hset]
    by_cases hq : q = inst.program
    · subst hq
      rw [lookup_setKey_self, hl]
      rfl
    · rw [lookup_setKey_ne _ _ _ _ hq]

theorem save_programs_hours (db : DB) (pk : Nat) (inst : ProgramSubmission)
    (today : Int) (creating : Bool) (q : Nat) :
    (lookup (save_submission db pk inst today creating).1.programs q).map
        Program.hours =
      (lookup db.programs q).map Program.hours := by
  unfold save_submission
  split <;> split
  · rfl
  · dsimp only
    rw [csloa_programs_hours, sync_programs]
  · rfl
  · dsimp only
    rw [csloa_programs_hours, sync_programs]

theorem save_programs_full (db : DB) (pk : Nat) (inst : ProgramSubmission)
    (today : Int) (creating : Bool) (prog : Program)
    (hprog : lookup db.programs inst.program = some prog)
    (hfull : prog.slots ≤ prog.slots_taken) :
    (save_submission db pk inst today creating).1.programs = db.programs := by
  unfold save_submission
  split <;> split
  · rfl
  · dsimp only
    rcases csloa_programs_cases
        (sync_submission_to_application _ inst) pk inst today with
      hsame | ⟨prog', hl', hlt', _⟩
    · rw [hsame, sync_programs]
    · rw [sync_programs] at hl'
      have heq : prog' = prog := by
        have h1 : lookup db.programs inst.program = some prog' := hl'
        rw [h1] at hprog
        exact Option.some_injective _ hprog
      subst heq
      omega
  · rfl
  · dsimp only
    rcases csloa_programs_cases
        (sync_submission_to_application _ inst) pk inst today with
      hsame | ⟨prog', hl', hlt', _⟩
    · rw [hsame, sync_programs]
    · rw [sync_programs] at hl'
      have heq : prog' = prog := by
        have h1 : lookup db.programs inst.program = some prog' := hl'
        rw [h1] at hprog
        exact Option.some_injective _ hprog
      subst heq
      omega

/-- Success path of `update_status` for a valid outcome: no error is ever
reported — there is no already-decided check — and the submission's status
is simply overwritten. -/
theorem update_status_spec (db : DB) (today : Int) (pk : Nat)
    (sub : ProgramSubmission) (s : String)
    (hl : lookup db.submissions pk = some sub)
    (hs : s = APPROVED ∨ s = REJECTED)
    (hnodup : prevent_duplicate_submission db (some pk)
      { sub with status := s } = false)
    (hprog : (lookup db.programs sub.program).isSome)
    (hstud : (lookup db.students sub.student).isSome) :
    (update_status db pk s today).2 = none ∧
    lookup (update_status db pk s today).1.submissions pk =
      some { sub with status := s } := by
  have hvalid : ¬(s ≠ APPROVED ∧ s ≠ REJECTED) := by
    rcases hs with rfl | rfl
    · exact fun hc => hc.1 rfl
    · exact fun hc => hc.2 rfl
  have hsv := save_update_spec db pk { sub with status := s } today hnodup
  unfold update_status
  rw [hl]
  dsimp only
  rw [if_neg hvalid]
  rcases hres : save_submission db pk { sub with status := s } today false with
    ⟨db1, err⟩
  rw [hres] at hsv
  obtain ⟨herr, hsubs⟩ := hsv
  simp only at herr hsubs
  subst herr
  have hss := save_students db pk { sub with status := s } today false
  rw [hres] at hss
  simp only at hss
  dsimp only
  by_cases hA : s = APPROVED
  · rw [if_pos hA]
    have hph := save_programs_hours db pk { sub with status := s } today false
      sub.program
    rw [hres] at hph
    simp only at hph
    rcases hp1 : lookup db1.programs sub.program with _ | prog1
    · rw [hp1] at hph
      rcases hp0 : lookup db.programs sub.program with _ | prog0
      · rw [hp0] at hprog
        simp at hprog
      · rw [hp0] at hph
        simp at hph
    · rcases hstu : lookup db1.students sub.student with _ | sp
      · rw [hss] at hstu
        rw [hstu] at hstud
        simp at hstud
      · dsimp only
        refine ⟨rfl, ?_⟩
        show lookup db1.submissions pk = _
        rw [hsubs, lookup_setKey_self, hl]
        rfl
  · rw [if_neg hA]
    refine ⟨rfl, ?_⟩
    show lookup db1.submissions pk = _
    rw [hsubs, lookup_setKey_self, hl]
    rfl

/-- Under a full program, the whole decision pipeline leaves the program
table untouched: the increment guard `slots_taken < slots` fails and no
other code writes programs. -/
theorem update_status_programs_full (db : DB) (pk : Nat) (s : String)
    (today : Int) (sub : ProgramSubmission) (prog : Program)
    (hl : lookup db.submissions pk = some sub)
    (hprog : lookup db.programs sub.program = some prog)
    (hfull : prog.slots ≤ prog.slots_taken) :
    (update_status db pk s today).1.programs = db.programs := by
  unfold update_status
  rw [hl]
  dsimp only
  split
  · rfl
  · split
    · rename_i db1 e heq
      have h2 := save_programs_full db pk { sub with status := s } today false
        prog hprog hfull
      rw [heq] at h2
      exact h2
    · rename_i db1 heq
      have h2 := save_programs_full db pk { sub with status := s } today false
        prog hprog hfull
      rw [heq] at h2
      simp only at h2
      split
      · split <;> exact h2
      · exact h2

/-- C3 corrected: `update_status` has no already-decided guard. For an
already-decided submission (status approved or rejected), a further decide
call with any valid outcome does not fail with anything resembling
AlreadyDecided — it reports no error and overwrites the stored status with
the new outcome. -/
theorem update_status_redecide_overwrites (db : DB) (today : Int) (pk : Nat)
    (sub : ProgramSubmission) (s : String)
    (hl : lookup db.submissions pk = some sub)
    (hdecided : sub.status = APPROVED ∨ sub.status = REJECTED)
    (hs : s = APPROVED ∨ s = REJECTED)
    (hnodup : prevent_duplicate_submission db (some pk)
      { sub with status := s } = false)
    (hprog : (lookup db.programs sub.program).isSome)
    (hstud : (lookup db.students sub.student).isSome) :
    (update_status db pk s today).2 = none ∧
    lookup (update_status db pk s today).1.submissions pk =
      some { sub with status := s } :=
  update_status_spec db today pk sub s hl hs hnodup hprog hstud

/-- Witness for the C3 amended theorem: re-deciding the approved submission
of the example run as rejected succeeds and overwrites. -/
theorem update_status_redecide_overwrites_witness :
    (update_status (run exDB 5 [Op.submit 0 0, Op.decide 0 APPROVED])
        0 REJECTED 5).2 = none ∧
    lookup (update_status (run exDB 5 [Op.submit 0 0, Op.decide 0 APPROVED])
        0 REJECTED 5).1.submissions 0 =
      some { student := 0, program := 0, status := REJECTED } :=
  update_status_redecide_overwrites
    (run exDB 5 [Op.submit 0 0, Op.decide 0 APPROVED]) 5 0
    { student := 0, program := 0, status := APPROVED } REJECTED
    (by decide) (by decide) (by decide) (by decide) (by decide) (by decide)

/-- C4 corrected: approving an application whose program is already full
(`slots_taken ≥ slots`) does not fail with anything resembling ProgramFull:
the call reports no error, the approved decision is recorded anyway, and
only the seat increment is silently skipped — the program row, in
particular `slots_taken`, is unchanged. -/
theorem update_status_full_approval_recorded (db : DB) (today : Int) (pk : Nat)
    (sub : ProgramSubmission) (prog : Program)
    (hl : lookup db.submissions pk = some sub)
    (hnodup : prevent_duplicate_submission db (some pk)
      { sub with status := APPROVED } = false)
    (hprog : lookup db.programs sub.program = some prog)
    (hfull : prog.slots ≤ prog.slots_taken)
    (hstud : (lookup db.students sub.student).isSome) :
    (update_status db pk APPROVED today).2 = none ∧
    lookup (update_status db pk APPROVED today).1.submissions pk =
      some { sub with status := APPROVED } ∧
    lookup (update_status db pk APPROVED today).1.programs sub.program =
      some prog := by
  have hbase := update_status_spec db today pk sub APPROVED hl (Or.inl rfl)
    hnodup (by rw [hprog]; rfl) hstud
  refine ⟨hbase.1, hbase.2, ?_⟩
  rw [update_status_programs_full db pk APPROVED today sub prog hl hprog hfull]
  exact hprog

/-- Witness for the C4 amended theorem on the fully-booked fixture. -/
theorem update_status_full_approval_recorded_witness :
    (update_status exFullDB 0 APPROVED 5).2 = none ∧
    lookup (update_status exFullDB 0 APPROVED 5).1.submissions 0 =
      some { student := 0, program := 0, status := APPROVED } ∧
    lookup (update_status exFullDB 0 APPROVED 5).1.programs 0 =
      some { date := 10, hours := 8, slots := 1, slots_taken := 1 } :=
  update_status_full_approval_recorded exFullDB 5 0
    { student := 0, program := 0, status := PENDING }
    { date := 10, hours := 8, slots := 1, slots_taken := 1 }
    (by decide) (by decide) (by decide) (by decide) (by decide)

/-- A fixture with a pending submission, its application, an unapproved log
and an empty hour counter, used by the C2 witness. -/
def exRichDB : DB :=
  { programs := [(0, { date := 10, hours := 8, slots := 2, slots_taken := 0 })],
    students := [(0, { hours_completed := 0 })],
    applications := [{ student := 0, program := 0, status := PENDING }],
    submissions := [(0, { student := 0, program := 0, status := PENDING })],
    logs := [{ student := 0, program := 0, hours := 8, status := STATUS_PENDING,
               approved := false }],
    next_pk := 1 }

/-- C2 amended: the operations that change `hours_completed` are exactly
(a) `update_status` with outcome approved, which adds `program.hours`
directly (views.py lines 268–275), and (b) every `approve_service_log`
call, which adds `log.hours` through the post_save receiver on each save of
an approved log — not only on the false-to-true transition. `submit` and
`update_status` with outcome rejected never change any student's hours. -/
theorem hours_completed_increment_paths (db : DB) (today : Int)
    (student pid pk : Nat) :
    ((program_apply db student pid today).1.students = db.students) ∧
    ((update_status db pk REJECTED today).1.students = db.students) ∧
    (∀ sub prog sp,
      lookup db.submissions pk = some sub →
      prevent_duplicate_submission db (some pk)
        { sub with status := APPROVED } = false →
      lookup db.programs sub.program = some prog →
      lookup db.students sub.student = some sp →
      lookup (update_status db pk APPROVED today).1.students sub.student =
        some { hours_completed := sp.hours_completed + prog.hours }) ∧
    (∀ log sp,
      db.logs.find? (fun l => l.student == student && l.program == pid) =
        some log →
      lookup db.students student = some sp →
      lookup (approve_service_log db student pid).1.students student =
        some { hours_completed := sp.hours_completed + log.hours }) := by
  refine ⟨?_, ?_, ?_, ?_⟩
  · unfold program_apply
    split
    · rfl
    · dsimp only
      unfold create_submission_from_application
      exact save_students _ _ _ _ _
  · unfold update_status
    split
    · rfl
    · rename_i sub hl
      split
      · rename_i hc
        exact absurd rfl hc.2
      · dsimp only
        split
        · rename_i db1 e heq
          have hs := save_students db pk { sub with status := REJECTED } today false
          rw [heq] at hs
          exact hs
        · rename_i db1 heq
          rw [if_neg (by decide : ¬REJECTED = APPROVED)]
          have hs := save_students db pk { sub with status := REJECTED } today false
          rw [heq] at hs
          exact hs
  · intro sub prog sp hl hnodup hprog hsp
    have hvalid : ¬(APPROVED ≠ APPROVED ∧ APPROVED ≠ REJECTED) :=
      fun hc => hc.1 rfl
    have hsv := save_update_spec db pk { sub with status := APPROVED } today hnodup
    unfold update_status
    rw [hl]
    dsimp only
    rw [if_neg hvalid]
    rcases hres : save_submission db pk { sub with status := APPROVED } today false
      with ⟨db1, err⟩
    rw [hres] at hsv
    obtain ⟨herr, hsubs⟩ := hsv
    simp only at herr
    subst herr
    have hss := save_students db pk { sub with status := APPROVED } today false
    rw [hres] at hss
    simp only at hss
    dsimp only
    rw [if_pos rfl]
    have hph := save_programs_hours db pk { sub with status := APPROVED } today
      false sub.program
    rw [hres] at hph
    simp only at hph
    rw [hprog] at hph
    rcases hp1 : lookup db1.programs sub.program with _ | prog1
    · rw [hp1] at hph
      simp at hph
    · rw [hp1] at hph
      have hinj : prog1.hours = prog.hours := by simpa using hph
      have hstu1 : lookup db1.students sub.student = some sp := by
        rw [hss]
        exact hsp
      rw [hstu1]
      dsimp only
      show lookup (setKey db1.students sub.student _) sub.student = _
      rw [lookup_setKey_self, hstu1, hinj]
      rfl
  · intro log sp hfind hsp
    have hpred := List.find?_some hfind
    simp only [Bool.and_eq_true, beq_iff_eq] at hpred
    obtain ⟨hstud_eq, hprog_eq⟩ := hpred
    unfold approve_service_log
    rw [hfind]
    dsimp only
    unfold update_hours_completed
    rw [if_pos rfl]
    dsimp only
    rw [hstud_eq, hsp]
    dsimp only
    rw [lookup_setKey_self, hsp]
    rfl

/-- Witness for the C2 amended theorem on the rich fixture: submit and
reject leave hours alone; an approval decision and a log approval each add
8 hours. -/
theorem hours_completed_increment_paths_witness :
    (program_apply exRichDB 0 0 5).1.students = exRichDB.students ∧
    (update_status exRichDB 0 REJECTED 5).1.students = exRichDB.students ∧
    lookup (update_status exRichDB 0 APPROVED 5).1.students 0 =
      some { hours_completed := 0 + 8 } ∧
    lookup (approve_service_log exRichDB 0 0).1.students 0 =
      some { hours_completed := 0 + 8 } := by
  obtain ⟨h1, h2, h3, h4⟩ := hours_completed_increment_paths exRichDB 5 0 0 0
  exact ⟨h1, h2,
    h3 { student := 0, program := 0, status := PENDING }
      { date := 10, hours := 8, slots := 2, slots_taken := 0 }
      { hours_completed := 0 } (by decide) (by decide) (by decide) (by decide),
    h4 { student := 0, program := 0, hours := 8, status := STATUS_PENDING,
         approved := false }
      { hours_completed := 0 } (by decide) (by decide)⟩

/-! ### Uniqueness of applications per (student, program) pair -/

/-- At most one application row per (student, program) pair. -/
def AppsOK (apps : List ProgramApplication) : Prop :=
  apps.Pairwise (fun a b => ¬(a.student = b.student ∧ a.program = b.program))

theorem updateFirstApp_pairs {apps : List ProgramApplication} {s p : Nat}
    {st : String} :
    ∀ a ∈ updateFirstApp apps s p st,
      ∃ b ∈ apps, a.student = b.student ∧ a.program = b.program := by
  induction apps with
  | nil => simp [updateFirstApp]
  | cons b rest ih =>
      intro a ha
      rw [updateFirstApp] at ha
      split at ha
      · rcases List.mem_cons.mp ha with rfl | ha'
        · exact ⟨b, List.mem_cons_self _ _, rfl, rfl⟩
        · exact ⟨a, List.mem_cons_of_mem _ ha', rfl, rfl⟩
      · rcases List.mem_cons.mp ha with rfl | ha'
        · exact ⟨a, List.mem_cons_self _ _, rfl, rfl⟩
        · obtain ⟨c, hc, hsc, hpc⟩ := ih a ha'
          exact ⟨c, List.mem_cons_of_mem _ hc, hsc, hpc⟩

theorem updateFirstApp_pairs_rev {apps : List ProgramApplication} {s p : Nat}
    {st : String} :
    ∀ b ∈ apps,
      ∃ a ∈ updateFirstApp apps s p st,
        a.student = b.student ∧ a.program = b.program := by
  induction apps with
  | nil => simp
  | cons c rest ih =>
      intro b hb
      rw [updateFirstApp]
      split
      · rcases List.mem_cons.mp hb with rfl | hb'
        · exact ⟨{ b with status := st }, List.mem_cons_self _ _, rfl, rfl⟩
        · exact ⟨b, List.mem_cons_of_mem _ hb', rfl, rfl⟩
      · rcases List.mem_cons.mp hb with rfl | hb'
        · exact ⟨b, List.mem_cons_self _ _, rfl, rfl⟩
        · obtain ⟨a, ha, hsa, hpa⟩ := ih b hb'
          exact ⟨a, List.mem_cons_of_mem _ ha, hsa, hpa⟩

theorem AppsOK_updateFirstApp {apps : List ProgramApplication} {s p : Nat}
    {st : String} (h : AppsOK apps) : AppsOK (updateFirstApp apps s p st) := by
  induction apps with
  | nil => exact h
  | cons a rest ih =>
      rw [AppsOK, List.pairwise_cons] at h
      rw [updateFirstApp]
      split
      · rw [AppsOK, List.pairwise_cons]
        exact ⟨fun q hq => h.1 q hq, h.2⟩
      · rw [AppsOK, List.pairwise_cons]
        refine ⟨?_, ih h.2⟩
        intro q hq
        obtain ⟨b, hb, hsb, hpb⟩ := updateFirstApp_pairs q hq
        intro hcon
        exact h.1 b hb ⟨hcon.1.trans hsb, hcon.2.trans hpb⟩

theorem sync_apps_ok (db : DB) (inst : ProgramSubmission)
    (h : AppsOK db.applications) :
    AppsOK (sync_submission_to_application db inst).applications := by
  unfold sync_submission_to_application
  split
  · split
    · exact AppsOK_updateFirstApp h
    · exact h
  · exact h

theorem save_apps_ok (db : DB) (pk : Nat) (inst : ProgramSubmission)
    (today : Int) (creating : Bool) (h : AppsOK db.applications) :
    AppsOK (save_submission db pk inst today creating).1.applications := by
  unfold save_submission
  split <;> split
  · exact h
  · dsimp only
    rw [csloa_applications]
    exact sync_apps_ok _ inst h
  · exact h
  · dsimp only
    rw [csloa_applications]
    exact sync_apps_ok _ inst h

theorem update_status_apps_ok (db : DB) (pk : Nat) (s : String) (today : Int)
    (h : AppsOK db.applications) :
    AppsOK (update_status db pk s today).1.applications := by
  unfold update_status
  split
  · exact h
  · rename_i sub hl
    split
    · exact h
    · dsimp only
      split
      · rename_i db1 e heq
        have h2 := save_apps_ok db pk { sub with status := s } today false h
        rw [heq] at h2
        exact h2
      · rename_i db1 heq
        have h2 := save_apps_ok db pk { sub with status := s } today false h
        rw [heq] at h2
        simp only at h2
        split
        · split <;> exact h2
        · exact h2

theorem validate_none_no_dup {db : DB} {student pid : Nat}
    (h : validate_program_id db student pid = none) :
    db.applications.any (fun a => a.student == student && a.program == pid) =
      false := by
  unfold validate_program_id at h
  split at h
  · simp at h
  · split at h
    · simp at h
    · split at h
      · simp at h
      · split at h
        · simp at h
        · rename_i hany
          simpa using hany

theorem program_apply_apps_ok (db : DB) (student pid : Nat) (today : Int)
    (h : AppsOK db.applications) :
    AppsOK (program_apply db student pid today).1.applications := by
  unfold program_apply
  split
  · exact h
  · rename_i hv
    dsimp only
    unfold create_submission_from_application
    refine save_apps_ok _ _ _ _ _ ?_
    show AppsOK (db.applications ++
      [{ student := student, program := pid, status := PENDING }])
    rw [AppsOK, List.pairwise_append]
    refine ⟨h, List.pairwise_singleton _ _, ?_⟩
    intro a ha b hb
    rw [List.mem_singleton] at hb
    subst hb
    intro hcon
    have hmem : db.applications.any
        (fun x => x.student == student && x.program == pid) = true :=
      List.any_eq_true.mpr ⟨a, ha, by simp [hcon.1, hcon.2]⟩
    rw [validate_none_no_dup hv] at hmem
    cases hmem

theorem step_apps_ok (db : DB) (today : Int) (op : Op)
    (h : AppsOK db.applications) :
    AppsOK (step db today op).1.applications := by
  cases op with
  | submit student pid => exact program_apply_apps_ok db student pid today h
  | decide pk s => exact update_status_apps_ok db pk s today h
  | approveLog student pid =>
      rw [step, (asl_rest db student pid).2.1]
      exact h

/-- C7 corrected: a duplicate submit creates no new application, but the
error it fails with depends on capacity — `validate_program_id` checks
`slots_remaining` before the duplicate check, so with free seats the
failure is DuplicateApplication and on a full program it is the
fully-booked error; in both cases the application table is unchanged, and
per-pair uniqueness of applications is preserved by every operation. -/
theorem program_apply_duplicate_guard (db : DB) (today : Int)
    (student pid : Nat) :
    (∀ prog, lookup db.programs pid = some prog →
      0 < prog.slots - prog.slots_taken →
      (lookup db.students student).isSome →
      db.applications.any (fun a => a.student == student && a.program == pid) =
        true →
      program_apply db student pid today = (db, some Err.DuplicateApplication)) ∧
    (db.applications.any (fun a => a.student == student && a.program == pid) =
        true →
      (program_apply db student pid today).1.applications = db.applications) ∧
    (∀ op, AppsOK db.applications → AppsOK (step db today op).1.applications) := by
  refine ⟨?_, ?_, fun op h => step_apps_ok db today op h⟩
  · intro prog hprog hfree hstud hany
    have hv : validate_program_id db student pid =
        some Err.DuplicateApplication := by
      unfold validate_program_id
      rw [hprog]
      dsimp only
      rw [if_neg (by omega)]
      rcases hstu : lookup db.students student with _ | sp
      · rw [hstu] at hstud
        simp at hstud
      · dsimp only
        rw [if_pos hany]
    unfold program_apply
    rw [hv]
  · intro hany
    unfold program_apply
    split
    · rfl
    · rename_i hv
      rw [validate_none_no_dup hv] at hany
      cases hany

/-- Witness for the C7 amended theorem: on the rich fixture (free seats, an
existing application) a repeated submit fails with DuplicateApplication and
leaves the application table unchanged; uniqueness survives a decide. -/
theorem program_apply_duplicate_guard_witness :
    program_apply exRichDB 0 0 5 = (exRichDB, some Err.DuplicateApplication) ∧
    (program_apply exRichDB 0 0 5).1.applications = exRichDB.applications ∧
    AppsOK (step exRichDB 5 (Op.decide 0 APPROVED)).1.applications := by
  obtain ⟨h1, h2, h3⟩ := program_apply_duplicate_guard exRichDB 5 0 0
  exact ⟨h1 { date := 10, hours := 8, slots := 2, slots_taken := 0 }
      (by decide) (by decide) (by decide) (by decide),
    h2 (by decide),
    h3 (Op.decide 0 APPROVED) (by exact List.pairwise_singleton _ _)⟩

/-! ### Well-formedness of the database and the application/submission sync -/

/-- All submission primary keys are below the next-pk counter. -/
def PkBound (db : DB) : Prop := ∀ p ∈ db.submissions, p.1 < db.next_pk

/-- Submission rows have pairwise-distinct primary keys and
pairwise-distinct (student, program) pairs. -/
def SubsOK (subs : List (Nat × ProgramSubmission)) : Prop :=
  subs.Pairwise (fun p q =>
    p.1 ≠ q.1 ∧ ¬(p.2.student = q.2.student ∧ p.2.program = q.2.program))

/-- Every submission row has an application row for the same pair. -/
def SubsHaveApp (db : DB) : Prop :=
  ∀ p ∈ db.submissions, ∃ a ∈ db.applications,
    a.student = p.2.student ∧ a.program = p.2.program

/-- An application and a submission for the same pair agree on status. -/
def Synced (db : DB) : Prop :=
  ∀ a ∈ db.applications, ∀ p ∈ db.submissions,
    a.student = p.2.student ∧ a.program = p.2.program → a.status = p.2.status

/-- The reachable-state invariant tying the four conditions together. -/
def WF (db : DB) : Prop :=
  PkBound db ∧ SubsOK db.submissions ∧ AppsOK db.applications ∧
  SubsHaveApp db ∧ Synced db

theorem wf_transfer {db db' : DB} (ha : db'.applications = db.applications)
    (hs : db'.submissions = db.submissions) (hn : db'.next_pk = db.next_pk)
    (h : WF db) : WF db' := by
  obtain ⟨hpk, hsOK, haOK, hha, hsync⟩ := h
  refine ⟨?_, ?_, ?_, ?_, ?_⟩
  · intro p hp
    rw [hs] at hp
    rw [hn]
    exact hpk p hp
  · rw [hs]
    exact hsOK
  · rw [ha]
    exact haOK
  · intro p hp
    rw [hs] at hp
    rw [ha]
    exact hha p hp
  · intro a hamem p hp
    rw [ha] at hamem
    rw [hs] at hp
    exact hsync a hamem p hp

theorem subs_rel_symm : Symmetric (fun p q : Nat × ProgramSubmission =>
    p.1 ≠ q.1 ∧ ¬(p.2.student = q.2.student ∧ p.2.program = q.2.program)) :=
  fun _ _ h => ⟨h.1.symm, fun hc => h.2 ⟨hc.1.symm, hc.2.symm⟩⟩

theorem apps_rel_symm : Symmetric (fun a b : ProgramApplication =>
    ¬(a.student = b.student ∧ a.program = b.program)) :=
  fun _ _ h => fun hc => h ⟨hc.1.symm, hc.2.symm⟩

/-- Under per-pair uniqueness, two applications with the same pair are the
same row. -/
theorem apps_unique {apps : List ProgramApplication} (hA : AppsOK apps)
    {a b : ProgramApplication} (ha : a ∈ apps) (hb : b ∈ apps)
    (hs : a.student = b.student) (hp : a.program = b.program) : a = b := by
  by_contra hne
  exact (List.Pairwise.forall apps_rel_symm hA ha hb hne) ⟨hs, hp⟩

/-- The pre_save duplicate check passes when updating a row in place with
the same (student, program) pair, because no other row shares the pair. -/
theorem subsok_nodup {db : DB} {pk : Nat} {sub : ProgramSubmission}
    (hOK : SubsOK db.submissions) (hl : lookup db.submissions pk = some sub)
    (inst : ProgramSubmission) (hs : inst.student = sub.student)
    (hp : inst.program = sub.program) :
    prevent_duplicate_submission db (some pk) inst = false := by
  unfold prevent_duplicate_submission
  rw [List.any_eq_false]
  intro q hq
  dsimp only
  intro hcon
  simp only [Bool.and_eq_true, bne_iff_ne, beq_iff_eq] at hcon
  obtain ⟨⟨hk, hss⟩, hpp⟩ := hcon
  have hmemsub := lookup_mem hl
  have hne : q ≠ (pk, sub) := fun he => hk (by rw [he])
  have hrel := List.Pairwise.forall subs_rel_symm hOK hq hmemsub hne
  exact hrel.2 ⟨by rw [hss, hs], by rw [hpp, hp]⟩

theorem SubsOK_setKey (pk : Nat) (sub inst : ProgramSubmission)
    (hs : inst.student = sub.student) (hp : inst.program = sub.program) :
    ∀ subs : List (Nat × ProgramSubmission), SubsOK subs →
      lookup subs pk = some sub → SubsOK (setKey subs pk inst) := by
  intro subs
  induction subs with
  | nil =>
      intro h _
      exact h
  | cons q rest ih =>
      intro hOK hl
      rw [SubsOK, List.pairwise_cons] at hOK
      obtain ⟨hhead, htail⟩ := hOK
      by_cases hq : q.1 = pk
      · have hsub : sub = q.2 := by
          rw [lookup, if_pos hq] at hl
          exact (Option.some_injective _ hl).symm
        have hrest : setKey rest pk inst = rest :=
          setKey_no_key (fun r hr he => (hhead r hr).1 (hq.trans he.symm))
        rw [setKey, if_pos hq, hrest]
        rw [SubsOK, List.pairwise_cons]
        refine ⟨?_, htail⟩
        intro r hr
        have h0 := hhead r hr
        refine ⟨by rw [← hq]; exact h0.1, ?_⟩
        intro hc
        have e1 : q.2.student = r.2.student := by
          rw [← hsub, ← hs]
          exact hc.1
        have e2 : q.2.program = r.2.program := by
          rw [← hsub, ← hp]
          exact hc.2
        exact h0.2 ⟨e1, e2⟩
      · have hl' : lookup rest pk = some sub := by
          rw [lookup, if_neg hq] at hl
          exact hl
        rw [setKey, if_neg hq]
        rw [SubsOK, List.pairwise_cons]
        refine ⟨?_, ih htail hl'⟩
        intro r hr
        rcases mem_setKey hr with rfl | ⟨hrmem, _⟩
        · refine ⟨hq, ?_⟩
          intro hc
          have hmem2 := lookup_mem hl'
          have h0 := hhead _ hmem2
          refine h0.2 ⟨?_, ?_⟩
          · rw [← hs]
            exact hc.1
          · rw [← hp]
            exact hc.2
        · exact hhead r hrmem

theorem SubsOK_append {subs : List (Nat × ProgramSubmission)} {pk : Nat}
    {inst : ProgramSubmission} (hOK : SubsOK subs)
    (hkey : ∀ q ∈ subs, q.1 ≠ pk)
    (hpair : ∀ q ∈ subs,
      ¬(q.2.student = inst.student ∧ q.2.program = inst.program)) :
    SubsOK (subs ++ [(pk, inst)]) := by
  rw [SubsOK, List.pairwise_append]
  refine ⟨hOK, List.pairwise_singleton _ _, ?_⟩
  intro q hq r hr
  rw [List.mem_singleton] at hr
  subst hr
  exact ⟨hkey q hq, hpair q hq⟩

/-- Detailed behaviour of `updateFirstApp` on a pairwise-unique table:
the row for the pair (if any) ends with the new status, and rows for other
pairs are untouched members of the original table. -/
theorem updateFirstApp_mem {apps : List ProgramApplication} {s p : Nat}
    {st : String} (hA : AppsOK apps) {a : ProgramApplication}
    (ha : a ∈ updateFirstApp apps s p st) :
    (a.student = s ∧ a.program = p → a.status = st) ∧
    (¬(a.student = s ∧ a.program = p) → a ∈ apps) := by
  induction apps with
  | nil => simp [updateFirstApp] at ha
  | cons b rest ih =>
      rw [AppsOK, List.pairwise_cons] at hA
      obtain ⟨hhead, htail⟩ := hA
      rw [updateFirstApp] at ha
      split at ha
      · rename_i hb
        simp only [Bool.and_eq_true, beq_iff_eq] at hb
        rcases List.mem_cons.mp ha with rfl | ha'
        · refine ⟨fun _ => rfl, fun hnp => ?_⟩
          exact absurd ⟨hb.1, hb.2⟩ hnp
        · refine ⟨?_, fun _ => List.mem_cons_of_mem _ ha'⟩
          intro hpair
          exact absurd ⟨hb.1.trans hpair.1.symm, hb.2.trans hpair.2.symm⟩
            (hhead a ha')
      · rename_i hb
        simp only [Bool.and_eq_true, beq_iff_eq, not_and] at hb
        rcases List.mem_cons.mp ha with rfl | ha'
        · refine ⟨?_, fun _ => List.mem_cons_self _ _⟩
          intro hpair
          exact absurd (hb hpair.1) (by simp [hpair.2])
        · have hr := ih htail ha'
          exact ⟨hr.1, fun hnp => List.mem_cons_of_mem _ (hr.2 hnp)⟩

/-- Behaviour of the sync receiver on a pairwise-unique application table:
afterwards, any application matching the submission's pair carries the
submission's status, and applications for other pairs are original rows. -/
theorem sync_post (db : DB) (inst : ProgramSubmission)
    (hA : AppsOK db.applications) :
    ∀ a ∈ (sync_submission_to_application db inst).applications,
      (a.student = inst.student ∧ a.program = inst.program →
        a.status = inst.status) ∧
      (¬(a.student = inst.student ∧ a.program = inst.program) →
        a ∈ db.applications) := by
  unfold sync_submission_to_application
  split
  · rename_i app hfind
    split
    · intro a ha
      dsimp only at ha
      exact updateFirstApp_mem hA ha
    · rename_i heqs
      rw [not_not] at heqs
      intro a ha
      refine ⟨?_, fun _ => ha⟩
      intro hpair
      have happ := List.mem_of_find?_eq_some hfind
      have hpred := List.find?_some hfind
      simp only [Bool.and_eq_true, beq_iff_eq] at hpred
      have hae : a = app := apps_unique hA ha happ
        (hpair.1.trans hpred.1.symm) (hpair.2.trans hpred.2.symm)
      rw [hae]
      exact heqs
  · rename_i hfind
    intro a ha
    refine ⟨?_, fun _ => ha⟩
    intro hpair
    have hnone := List.find?_eq_none.mp hfind a ha
    simp [hpair.1, hpair.2] at hnone

/-- Every pair present in the application table is still present after the
sync receiver runs. -/
theorem sync_apps_rev (db : DB) (inst : ProgramSubmission) :
    ∀ b ∈ db.applications,
      ∃ a ∈ (sync_submission_to_application db inst).applications,
        a.student = b.student ∧ a.program = b.program := by
  unfold sync_submission_to_application
  split
  · split
    · intro b hb
      exact updateFirstApp_pairs_rev b hb
    · intro b hb
      exact ⟨b, hb, rfl, rfl⟩
  · intro b hb
    exact ⟨b, hb, rfl, rfl⟩

/-- Saving a status change of an existing submission row keeps the database
well-formed, and never errors. -/
theorem wf_update (db : DB) (pk : Nat) (sub : ProgramSubmission) (s : String)
    (today : Int) (hwf : WF db) (hl : lookup db.submissions pk = some sub) :
    (save_submission db pk { sub with status := s } today false).2 = none ∧
    WF (save_submission db pk { sub with status := s } today false).1 := by
  obtain ⟨hpk, hsOK, haOK, hha, hsync⟩ := hwf
  have hnodup := subsok_nodup hsOK hl { sub with status := s } rfl rfl
  unfold save_submission
  rw [if_neg (by simp [hnodup])]
  dsimp only
  rw [if_neg (fun h : (false : Bool) = true => Bool.noConfusion h)]
  refine ⟨rfl, ?_⟩
  apply wf_transfer (csloa_applications _ _ _ _) (csloa_submissions _ _ _ _)
    (csloa_next_pk _ _ _ _)
  set inst : ProgramSubmission := { sub with status := s } with hinst
  set db1 : DB :=
    { db with submissions := setKey db.submissions pk inst } with hdb1
  have hsubs1 : db1.submissions = setKey db.submissions pk inst := rfl
  have happs1 : db1.applications = db.applications := rfl
  have hmemsub := lookup_mem hl
  refine ⟨?_, ?_, ?_, ?_, ?_⟩
  · -- PkBound
    intro p hp
    rw [sync_submissions, hsubs1] at hp
    rw [sync_next_pk]
    rcases mem_setKey hp with rfl | ⟨hmem, _⟩
    · exact hpk (pk, sub) hmemsub
    · exact hpk p hmem
  · -- SubsOK
    rw [sync_submissions, hsubs1]
    exact SubsOK_setKey pk sub inst rfl rfl db.submissions hsOK hl
  · -- AppsOK
    exact sync_apps_ok db1 inst haOK
  · -- SubsHaveApp
    intro p hp
    rw [sync_submissions, hsubs1] at hp
    have base : ∃ a ∈ db.applications,
        a.student = p.2.student ∧ a.program = p.2.program := by
      rcases mem_setKey hp with rfl | ⟨hmem, _⟩
      · exact hha (pk, sub) hmemsub
      · exact hha p hmem
    obtain ⟨a, hamem, hsa, hpa⟩ := base
    obtain ⟨a2, ha2, hsa2, hpa2⟩ := sync_apps_rev db1 inst a (by rw [happs1]; exact hamem)
    exact ⟨a2, ha2, hsa2.trans hsa, hpa2.trans hpa⟩
  · -- Synced
    intro a hamem p hp
    rw [sync_submissions, hsubs1] at hp
    intro hpair
    have hpost := sync_post db1 inst haOK a hamem
    rcases mem_setKey hp with rfl | ⟨hmem, hkey⟩
    · exact hpost.1 hpair
    · -- a row for a different pair than the one being saved
      have hne : p ≠ (pk, sub) := fun he => hkey (by rw [he])
      have hrel := List.Pairwise.forall subs_rel_symm hsOK hmem hmemsub hne
      have hnp : ¬(a.student = inst.student ∧ a.program = inst.program) := by
        intro hc
        exact hrel.2 ⟨hpair.1.symm.trans hc.1, hpair.2.symm.trans hc.2⟩
      have hmem2 := hpost.2 hnp
      exact hsync a hmem2 p hmem hpair

/-- The pre_save duplicate check only reads the submission table. -/
theorem prevent_dup_eq (dbx dby : DB) (h : dbx.submissions = dby.submissions)
    (pk : Option Nat) (inst : ProgramSubmission) :
    prevent_duplicate_submission dbx pk inst =
      prevent_duplicate_submission dby pk inst := by
  unfold prevent_duplicate_submission
  rw [h]

/-- Submitting an application keeps the database well-formed: the new
application and its auto-created submission are created with the same
(fresh) pair and the same pending status. -/
theorem wf_program_apply (db : DB) (student pid : Nat) (today : Int)
    (hwf : WF db) : WF (program_apply db student pid today).1 := by
  obtain ⟨hpk, hsOK, haOK, hha, hsync⟩ := hwf
  unfold program_apply
  split
  · exact ⟨hpk, hsOK, haOK, hha, hsync⟩
  · rename_i hv
    dsimp only
    unfold create_submission_from_application
    dsimp only
    have hnodupApps := validate_none_no_dup hv
    have hnosub : ∀ q ∈ db.submissions,
        ¬(q.2.student = student ∧ q.2.program = pid) := by
      intro q hq hc
      obtain ⟨a, ha, hsa, hpa⟩ := hha q hq
      have hT : db.applications.any
          (fun x => x.student == student && x.program == pid) = true :=
        List.any_eq_true.mpr ⟨a, ha, by simp [hsa.trans hc.1, hpa.trans hc.2]⟩
      rw [hnodupApps] at hT
      cases hT
    set newapp : ProgramApplication :=
      { student := student, program := pid, status := PENDING } with hnapp
    set inst : ProgramSubmission :=
      { student := student, program := pid, status := PENDING } with hinst
    set pk : Nat := db.next_pk with hpkdef
    have hnodup : prevent_duplicate_submission db none inst = false := by
      unfold prevent_duplicate_submission
      rw [List.any_eq_false]
      intro q hq
      dsimp only
      intro hcon
      simp only [Bool.true_and, Bool.and_eq_true, beq_iff_eq] at hcon
      exact hnosub q hq hcon
    have happsOK1 : AppsOK (db.applications ++ [newapp]) := by
      rw [AppsOK, List.pairwise_append]
      refine ⟨haOK, List.pairwise_singleton _ _, ?_⟩
      intro a ha b hb
      rw [List.mem_singleton] at hb
      subst hb
      intro hcon
      have hT : db.applications.any
          (fun x => x.student == student && x.program == pid) = true :=
        List.any_eq_true.mpr ⟨a, ha, by simp [hcon.1, hcon.2]⟩
      rw [hnodupApps] at hT
      cases hT
    have hnd2 : prevent_duplicate_submission ({ db with applications := db.applications ++ [newapp], next_pk := pk + 1 }) none inst = false := hnodup
    unfold save_submission
    rw [if_neg (by simp [hnd2])]
    dsimp only
    rw [if_pos rfl]
    apply wf_transfer (csloa_applications _ _ _ _) (csloa_submissions _ _ _ _)
      (csloa_next_pk _ _ _ _)
    set db3 : DB := { db with applications := db.applications ++ [newapp], submissions := db.submissions ++ [(pk, inst)], next_pk := pk + 1 } with hdb3
    refine ⟨?_, ?_, ?_, ?_, ?_⟩
    · -- PkBound
      intro p hp
      rw [sync_submissions] at hp
      rw [sync_next_pk]
      rcases List.mem_append.mp hp with hmem | hmem
      · exact Nat.lt_succ_of_lt (hpk p hmem)
      · rw [List.mem_singleton] at hmem
        subst hmem
        exact Nat.lt_succ_self _
    · -- SubsOK
      rw [sync_submissions]
      exact SubsOK_append hsOK
        (fun q hq he => Nat.lt_irrefl _ (he ▸ hpk q hq))
        (fun q hq => hnosub q hq)
    · -- AppsOK
      exact sync_apps_ok db3 inst happsOK1
    · -- SubsHaveApp
      intro p hp
      rw [sync_submissions] at hp
      have base : ∃ a ∈ db3.applications,
          a.student = p.2.student ∧ a.program = p.2.program := by
        rcases List.mem_append.mp hp with hmem | hmem
        · obtain ⟨a, ha, hsa, hpa⟩ := hha p hmem
          exact ⟨a, List.mem_append_left _ ha, hsa, hpa⟩
        · rw [List.mem_singleton] at hmem
          subst hmem
          exact ⟨newapp, List.mem_append_right _ (List.mem_singleton.mpr rfl),
            rfl, rfl⟩
      obtain ⟨a, ha, hsa, hpa⟩ := base
      obtain ⟨a2, ha2, hsa2, hpa2⟩ := sync_apps_rev db3 inst a ha
      exact ⟨a2, ha2, hsa2.trans hsa, hpa2.trans hpa⟩
    · -- Synced
      intro a hamem p hp hpair
      rw [sync_submissions] at hp
      have hpost := sync_post db3 inst happsOK1 a hamem
      rcases List.mem_append.mp hp with hmem | hmem
      · -- old submission: its pair differs from (student, pid)
        have hnp : ¬(a.student = inst.student ∧ a.program = inst.program) := by
          intro hc
          exact hnosub p hmem ⟨hpair.1.symm.trans hc.1, hpair.2.symm.trans hc.2⟩
        have hmem2 := hpost.2 hnp
        rcases List.mem_append.mp hmem2 with hmem3 | hmem3
        · exact hsync a hmem3 p hmem hpair
        · rw [List.mem_singleton] at hmem3
          subst hmem3
          exact absurd ⟨hpair.1.symm, hpair.2.symm⟩ (hnosub p hmem)
      · rw [List.mem_singleton] at hmem
        subst hmem
        exact hpost.1 ⟨hpair.1, hpair.2⟩

theorem wf_update_status (db : DB) (pk : Nat) (s : String) (today : Int)
    (hwf : WF db) : WF (update_status db pk s today).1 := by
  unfold update_status
  split
  · exact hwf
  · rename_i sub hl
    split
    · exact hwf
    · dsimp only
      split
      · rename_i db1 e heq
        have h2 := (wf_update db pk sub s today hwf hl).1
        rw [heq] at h2
        simp at h2
      · rename_i db1 heq
        have h2 := (wf_update db pk sub s today hwf hl).2
        rw [heq] at h2
        simp only at h2
        split
        · split
          · exact wf_transfer rfl rfl rfl h2
          · exact h2
        · exact h2

theorem wf_step (db : DB) (today : Int) (op : Op) (hwf : WF db) :
    WF (step db today op).1 := by
  cases op with
  | submit student pid => exact wf_program_apply db student pid today hwf
  | decide pk s => exact wf_update_status db pk s today hwf
  | approveLog student pid =>
      exact wf_transfer (asl_rest db student pid).2.1
        (asl_rest db student pid).2.2.1 (asl_rest db student pid).2.2.2 hwf

theorem wf_run (db : DB) (today : Int) (ops : List Op) (hwf : WF db) :
    WF (run db today ops) := by
  induction ops generalizing db with
  | nil => exact hwf
  | cons op ops ih => exact ih _ (wf_step db today op hwf)

/-- C10: from any well-formed state (fresh pk counter, per-pair uniqueness
of applications and submissions, every submission backed by an application,
matching pairs in agreement — all true of the empty database), after any
sequence of workflow operations every ProgramApplication agrees on `status`
with the ProgramSubmissions row of its (student, program) pair: submission
saves propagate to the application through
`sync_submission_to_application`, and creation copies the status. -/
theorem application_submission_status_synced (db0 : DB) (today : Int)
    (ops : List Op) (hwf : WF db0) :
    ∀ a ∈ (run db0 today ops).applications,
      ∀ p ∈ (run db0 today ops).submissions,
        a.student = p.2.student ∧ a.program = p.2.program →
          a.status = p.2.status :=
  (wf_run db0 today ops hwf).2.2.2.2

/-- Witness for C10: a submit followed by an approval on the one-program
fixture, starting from the empty (hence well-formed) tables; the resulting
application and submission rows for the pair agree on 'approved'. -/
theorem application_submission_status_synced_witness :
    ({ student := 0, program := 0, status := APPROVED }
        : ProgramApplication).status =
      ((0, { student := 0, program := 0, status := APPROVED })
        : Nat × ProgramSubmission).2.status :=
  application_submission_status_synced exDB 5
    [Op.submit 0 0, Op.decide 0 APPROVED]
    ⟨(by intro p hp; cases hp), List.Pairwise.nil, List.Pairwise.nil,
     (by intro p hp; cases hp), (by intro a ha; cases ha)⟩
    { student := 0, program := 0, status := APPROVED } (by decide)
    (0, { student := 0, program := 0, status := APPROVED }) (by decide)
    ⟨rfl, rfl⟩

end CSTracker
